import Mathlib

/-!
Verification of the vault note cache, metadata extraction and fuzzy search
of the claudesidian MCP server (claudesidian_mcp/vault.py, search.py,
memory.py), as a shallow embedding.

Conventions of the embedding:
* File contents are `List Char`; paths, titles and modes are `String`.
* The external world (the YAML library `yaml.safe_load`, `Path.stat`,
  `datetime.now`, and the heading-regex search of `update_note`) is an
  explicit `World` record of oracles.
* The mutable state of a `VaultManager` instance (`_note_cache`,
  `_metadata_cache`, `_note_list_cache`, `_note_list_cache_time`) together
  with the on-disk filesystem is a `VMState`; every method is a function
  `VMState → result × VMState`.  `readCount` instruments how many actual
  disk reads `_read_file` has performed.
* `asyncio` offloading (`run_in_executor`, `gather` with a semaphore) is
  modelled sequentially; no claim under study concerns interleavings.
-/

/-- The yaml library value model: a parsed YAML document.  Only the shape
(dict vs non-dict) and a few scalar carriers matter to the code. -/
inductive Yaml where
  | bool (b : Bool)
  | str (s : String)
  | num (n : Int)
  | list (xs : List Yaml)
  | dict (entries : List (String × Yaml))

/-- Outcome of `yaml.safe_load` on a front-matter block: a parsed value, a
`yaml.YAMLError` (the only exception the inner `try` of `_get_metadata`
catches), or any other exception (which propagates to the outer handler). -/
inductive ParseOutcome where
  | ok (y : Yaml)
  | yamlError
  | otherError

/-- vault.py `VaultMetadata` dataclass.  Timestamps are abstract `Nat`
ticks; the Python `set`s are represented by deduplicated match lists. -/
structure VaultMetadata where
  created : Nat
  modified : Nat
  tags : List (List Char)
  links : List (List Char)
  backlinks : List (List Char)
  yaml_frontmatter : List (String × Yaml)

/-- vault.py `VaultNote` dataclass. -/
structure VaultNote where
  path : String
  title : String
  content : List Char
  metadata : VaultMetadata

/-- External collaborators of `VaultManager`: the YAML parser, `Path.stat`
(`none` = the stat call raises), the current clock used by
`datetime.now()`, and the result position of the heading regex search in
`update_note` (`re.search` of the escaped-heading pattern; `some n` is
`match.end()`). -/
structure World where
  parseYaml : List Char → ParseOutcome
  statFn : String → Option (Nat × Nat)
  now : Nat
  headingMatch : List Char → String → Option Nat

/-- The instance state of a `VaultManager` plus the backing filesystem.
All caches are keyed exactly as the source keys them (by whatever path
string the call site passes — absolute or relative). -/
structure VMState where
  fs : List (String × List Char)
  noteCache : String → Option (List Char)
  metadataCache : String → Option VaultMetadata
  noteListCache : Option (List VaultNote)
  noteListCacheTime : Nat
  readCount : Nat

/-- `self._cache_ttl = 30` (vault.py line 62). -/
def cacheTTL : Nat := 30

/-- Python `vault_path / path` on strings (`Path("") / p` is `p`). -/
def joinPath (v p : String) : String := if v = "" then p else v ++ "/" ++ p

/-- Filesystem lookup (`Path.exists` / `Path.read_text`). -/
def lookupFS : List (String × List Char) → String → Option (List Char)
  | [], _ => none
  | (q, c) :: rest, p => if q = p then some c else lookupFS rest p

/-- Filesystem write (`Path.write_text`). -/
def setFS : List (String × List Char) → String → List Char → List (String × List Char)
  | [], p, c => [(p, c)]
  | (q, d) :: rest, p, c => if q = p then (p, c) :: rest else (q, d) :: setFS rest p c

/-- An opening brace character, written via its code point. -/
def lbrace : Char := Char.ofNat 123

/-- Whether `sub` occurs as a contiguous substring (Python `sub in s`). -/
def hasSubstr (sub : List Char) : List Char → Bool
  | [] => sub.isEmpty
  | c :: rest => sub.isPrefixOf (c :: rest) || hasSubstr sub rest

/-- A character of the tag regex class `[a-zA-Z0-9_-]`. -/
def isTagChar (c : Char) : Bool := c.isAlphanum || c = '_' || c = '-'

/-- Fuel-bounded scan for the non-overlapping matches of the tag pattern
`#([a-zA-Z0-9_-]+)` (vault.py line 68); each step consumes at least one
character, so fuel `length + 1` is always enough. -/
def findTagsAux : Nat → List Char → List (List Char)
  | 0, _ => []
  | _, [] => []
  | fuel + 1, c :: rest =>
    if c = '#' then
      let body := rest.takeWhile isTagChar
      if body.isEmpty then findTagsAux fuel rest
      else body :: findTagsAux fuel (rest.dropWhile isTagChar)
    else findTagsAux fuel rest

/-- `self._tag_pattern.findall(content)`. -/
def findTags (l : List Char) : List (List Char) := findTagsAux (l.length + 1) l

/-- Scan for the closing `]]` of a wiki link: the link regex has no
`DOTALL`, so `.` does not cross a newline; returns the group text and the
remainder after `]]`, or `none` when no `]]` occurs before a newline. -/
def takeLink : List Char → Option (List Char × List Char)
  | ']' :: ']' :: rest => some ([], rest)
  | '\n' :: _ => none
  | [] => none
  | c :: rest => (takeLink rest).map fun p => (c :: p.1, p.2)

/-- Fuel-bounded scan for the non-overlapping matches of the link pattern
`\[\[(.*?)\]\]` (vault.py line 67); on a failed candidate the regex engine
restarts one character later.  Each step consumes at least one character,
so fuel `length + 1` is always enough. -/
def findLinksAux : Nat → List Char → List (List Char)
  | 0, _ => []
  | _, [] => []
  | fuel + 1, '[' :: '[' :: rest =>
    (match takeLink rest with
     | some (lk, rest1) => lk :: findLinksAux fuel rest1
     | none => findLinksAux fuel ('[' :: rest))
  | fuel + 1, _ :: rest => findLinksAux fuel rest

/-- `self._link_pattern.findall(content)`. -/
def findLinks (l : List Char) : List (List Char) := findLinksAux (l.length + 1) l

/-- Scan for the first `\n---` fence terminator; returns the (non-greedy)
group text before it. -/
def takeToFence : List Char → Option (List Char)
  | '\n' :: '-' :: '-' :: '-' :: _ => some []
  | [] => none
  | c :: rest => (takeToFence rest).map fun l => c :: l

/-- `self._yaml_pattern.match(content)` for the anchored pattern
`^---\n(.*?)\n---` with `DOTALL` (vault.py line 69): the content must
begin with `---\n` and the group runs to the first `\n---`. -/
def extractYamlBlock : List Char → Option (List Char)
  | '-' :: '-' :: '-' :: '\n' :: rest => takeToFence rest
  | _ => none

/-- The `yaml_frontmatter` computation of `_get_metadata` (vault.py lines
305-319): no leading block gives the empty dict; a block containing the
template substrings (two open braces, or open brace + percent) gives the
`_is_template` marker without parsing; otherwise `yaml.safe_load` runs and
a dict result is kept, a non-dict result is dropped, a `YAMLError` stores
the raw block, and any other exception escapes the inner `try`. -/
def computeYfm (w : World) (content : List Char) : Except Unit (List (String × Yaml)) :=
  match extractYamlBlock content with
  | none => .ok []
  | some block =>
    if hasSubstr [lbrace, lbrace] block || hasSubstr [lbrace, '%'] block then
      .ok [("_is_template", Yaml.bool true)]
    else
      match w.parseYaml block with
      | .ok (Yaml.dict m) => .ok m
      | .ok _ => .ok []
      | .yamlError => .ok [("_raw_frontmatter", Yaml.str (String.mk block))]
      | .otherError => .error ()

/-- The metadata returned by the `except` handler of `_get_metadata`
(vault.py lines 337-346): `datetime.now()` timestamps, empty sets, empty
front-matter dict; note the handler does not populate the cache. -/
def degenerateMetadata (now : Nat) : VaultMetadata :=
  { created := now, modified := now, tags := [], links := [], backlinks := [],
    yaml_frontmatter := [] }

/-- The `try` body of `_get_metadata` (vault.py lines 300-335) on a cache
miss: stat the file (raising on failure), compute front-matter, tags and
links, build the metadata and store it in `_metadata_cache`.  An uncaught
exception is `.error`. -/
def get_metadata_body (w : World) (st : VMState) (path : String) (content : List Char) :
    Except Unit (VaultMetadata × VMState) :=
  match w.statFn path with
  | none => .error ()
  | some (ctime, mtime) =>
    match computeYfm w content with
    | .error e => .error e
    | .ok yfm =>
      let md : VaultMetadata :=
        { created := ctime, modified := mtime,
          tags := (findTags content).dedup,
          links := (findLinks content).dedup,
          backlinks := [],
          yaml_frontmatter := yfm }
      .ok (md, { st with metadataCache := fun q => if q = path then some md else st.metadataCache q })

/-- `_get_metadata` (vault.py lines 295-346): return the cached metadata
for `path` if present (ignoring `content`); otherwise run the body, and on
any exception return the degenerate metadata without caching. -/
def get_metadata (w : World) (st : VMState) (path : String) (content : List Char) :
    VaultMetadata × VMState :=
  match st.metadataCache path with
  | some m => (m, st)
  | none =>
    match get_metadata_body w st path content with
    | .ok r => r
    | .error _ => (degenerateMetadata w.now, st)

/-- `path.stem`: the final path component with its last extension removed
(a leading dot is not an extension). -/
def stem (p : String) : String :=
  let base := (p.data.reverse.takeWhile fun c => c ≠ '/').reverse
  match base.reverse.span fun c => c ≠ '.' with
  | (_, []) => String.mk base
  | (_, _ :: restRev) => if restRev.isEmpty then String.mk base else String.mk restRev.reverse

/-- `_read_file` (vault.py lines 375-398): return the `_note_cache` entry
for `path` when present — no staleness check of any kind — otherwise read
from disk (counting the read), populate the cache and return; a failed
read (missing file) is caught and yields `none`. -/
def read_file (st : VMState) (path : String) : Option (List Char) × VMState :=
  match st.noteCache path with
  | some c => (some c, st)
  | none =>
    match lookupFS st.fs path with
    | some c =>
      (some c,
       { st with noteCache := fun q => if q = path then some c else st.noteCache q,
                 readCount := st.readCount + 1 })
    | none => (none, st)

/-- `_write_file` (vault.py lines 400-408): plain disk write, touching no
cache. -/
def write_file (st : VMState) (path : String) (content : List Char) : VMState :=
  { st with fs := setFS st.fs path content }

/-- `invalidate_cache` (vault.py lines 410-425): with no path, clear
`_metadata_cache` and drop `_note_list_cache`; with a path, delete that
key from `_metadata_cache` and filter it out of `_note_list_cache` (the
source guards the filter with Python truthiness, which skips `None` and
the empty list — observationally the same on the empty list). -/
def invalidate_cache (st : VMState) : Option String → VMState
  | none => { st with metadataCache := fun _ => none, noteListCache := none }
  | some p =>
    { st with
      metadataCache := fun q => if q = p then none else st.metadataCache q,
      noteListCache := st.noteListCache.map fun l =>
        if l.isEmpty then l else l.filter fun n => n.path ≠ p }

/-- `update_note` (vault.py lines 159-213).  Fails if the target does not
exist on disk or cannot be read.  With a heading, insert after the regex
match of the heading line, or append a fresh `## heading` section when the
regex does not match.  With no heading, `append` and `prepend` concatenate
with a newline, and any other mode replaces the content outright.  After
writing, `invalidate_cache` is called with the RELATIVE path and the
RELATIVE path is deleted from `_note_cache` — exactly as in the source,
which caches both under the ABSOLUTE path. -/
def update_note (w : World) (st : VMState) (vaultPath relPath : String) (content : List Char)
    (mode : String) (heading : Option String) : Bool × VMState :=
  let absPath := joinPath vaultPath relPath
  match lookupFS st.fs absPath with
  | none => (false, st)
  | some _ =>
    match read_file st absPath with
    | (none, st1) => (false, st1)
    | (some existing, st1) =>
      let newContent :=
        match heading with
        | some h =>
          match w.headingMatch existing h with
          | some insertPos =>
            existing.take insertPos ++ '\n' :: content ++ '\n' :: existing.drop insertPos
          | none => existing ++ ('\n' :: '\n' :: '#' :: '#' :: ' ' :: h.data) ++ '\n' :: content ++ ['\n']
        | none =>
          if mode = "append" then existing ++ '\n' :: content
          else if mode = "prepend" then content ++ '\n' :: existing
          else content
      let st2 := write_file st1 absPath newContent
      let st3 := invalidate_cache st2 (some relPath)
      let st4 := { st3 with noteCache := fun q => if q = relPath then none else st3.noteCache q }
      (true, st4)

/-- `get_note` (vault.py lines 215-236): `none` when the file does not
exist or cannot be read; otherwise read (through `_read_file`'s cache),
extract metadata (through `_get_metadata`'s cache) and build the note. -/
def get_note (w : World) (st : VMState) (vaultPath relPath : String) :
    Option VaultNote × VMState :=
  let absPath := joinPath vaultPath relPath
  match lookupFS st.fs absPath with
  | none => (none, st)
  | some _ =>
    match read_file st absPath with
    | (none, st1) => (none, st1)
    | (some content, st1) =>
      let r := get_metadata w st1 absPath content
      (some { path := relPath, title := stem relPath, content := content, metadata := r.1 }, r.2)

/-- Whether `l` ends with `suffix`. -/
def endsWithList (suffix l : List Char) : Bool := suffix.reverse.isPrefixOf l.reverse

/-- Whether an absolute path lies under the vault root (`rglob` scope). -/
def isUnder (v p : String) : Bool :=
  if v = "" then true else (v.data ++ ['/']).isPrefixOf p.data

/-- `file_path.relative_to(self.vault_path)`. -/
def relOf (v p : String) : String :=
  if v = "" then p else String.mk (p.data.drop (v.length + 1))

/-- The per-file loop of `get_all_notes` (vault.py lines 250-275),
modelled sequentially: each file goes through `get_note`; failures yield
`None` and are filtered out of the collected list. -/
def process_files (w : World) (v : String) : VMState → List String → List VaultNote × VMState
  | st, [] => ([], st)
  | st, f :: rest =>
    let r1 := get_note w st v (relOf v f)
    let r2 := process_files w v r1.2 rest
    ((match r1.1 with | some n => n :: r2.1 | none => r2.1), r2.2)

/-- The cache-miss branch of `get_all_notes`: scan the vault for `*.md`
files, process them, store the result in `_note_list_cache` and stamp
`_note_list_cache_time`. -/
def compute_all_notes (w : World) (st : VMState) (v : String) (now : Nat) :
    List VaultNote × VMState :=
  let mdFiles := (st.fs.map Prod.fst).filter fun p => isUnder v p && endsWithList ".md".data p.data
  let r := process_files w v st mdFiles
  (r.1, { r.2 with noteListCache := some r.1, noteListCacheTime := now })

/-- `get_all_notes` (vault.py lines 238-280): return the cached listing
when it exists and `time.time() - self._note_list_cache_time <
self._cache_ttl`; otherwise recompute. -/
def get_all_notes (w : World) (st : VMState) (v : String) (now : Nat) :
    List VaultNote × VMState :=
  match st.noteListCache with
  | some l => if now - st.noteListCacheTime < cacheTTL then (l, st) else compute_all_notes w st v now
  | none => compute_all_notes w st v now

/-- One entry of the dict list returned by `SearchEngine.search`
(search.py lines 223-227): title, score and the content preview. -/
structure SResult where
  title : String
  score : Nat
  content : List Char
deriving DecidableEq

/-- The preview expression shared by search.py line 222 and memory.py
line 132: the first 200 characters plus an ellipsis marker when the
content is longer than 200 characters, the whole content otherwise. -/
def preview (c : List Char) : List Char :=
  if 200 < c.length then c.take 200 ++ ('.' :: '.' :: '.' :: []) else c

/-- Stable insertion into a list sorted by descending key: the new
element goes before the first element whose key is not larger. -/
def insertDesc {α : Type} (key : α → Nat) (x : α) : List α → List α
  | [] => [x]
  | y :: ys => if key y ≤ key x then x :: y :: ys else y :: insertDesc key x ys

/-- Stable sort by descending key (ties keep first-occurrence order). -/
def sortDesc {α : Type} (key : α → Nat) : List α → List α
  | [] => []
  | x :: xs => insertDesc key x (sortDesc key xs)

/-- `rapidfuzz.process.extract(query, titles, scorer, limit)` (search.py
line 217): score every title, order by descending score (ties modelled as
keeping input order), return the best `limit` triples
`(title, score, index)`.  The scorer (`fuzz.partial_ratio`, an external
library function with scores in `[0, 100]`) is an explicit parameter. -/
def process_extract (scorer : String → String → Nat) (query : String) (titles : List String)
    (limit : Nat) : List (String × Nat × Nat) :=
  (sortDesc (fun m => m.2.1) ((titles.enum).map fun p => (p.2, scorer query p.2, p.1))).take limit

/-- `SearchEngine.search` (search.py lines 215-228): extract the top
`max_results` matches over the indexed titles, keep those with
`score >= threshold`, and build the result dict with the preview of the
indexed content at the match index. -/
def search (scorer : String → String → Nat) (index : List (String × List Char)) (query : String)
    (threshold maxResults : Nat) : List SResult :=
  let titles := index.map Prod.fst
  let ms := process_extract scorer query titles maxResults
  ms.filterMap fun m =>
    if threshold ≤ m.2.1 then
      some { title := m.1, score := m.2.1, content := preview (index.getD m.2.2 ("", [])).2 }
    else none

/-- A fresh `VaultManager` state over a given filesystem: all caches
empty, no reads performed yet. -/
def mkVM (fs : List (String × List Char)) : VMState :=
  { fs := fs, noteCache := fun _ => none, metadataCache := fun _ => none,
    noteListCache := none, noteListCacheTime := 0, readCount := 0 }

/-- A benign world: stat always succeeds with zero timestamps, the YAML
parser reports a parse error (irrelevant to contents without
front-matter), no heading ever matches. -/
def stdWorld : World :=
  { parseYaml := fun _ => ParseOutcome.yamlError, statFn := fun _ => some (0, 0), now := 0,
    headingMatch := fun _ _ => none }

theorem lookupFS_setFS_self (fs : List (String × List Char)) (p : String) (c : List Char) :
    lookupFS (setFS fs p c) p = some c := by
  induction fs with
  | nil => simp [setFS, lookupFS]
  | cons hd tl ih =>
    obtain ⟨q, d⟩ := hd
    by_cases h : q = p
    · simp [setFS, h, lookupFS]
    · simp [setFS, h, lookupFS, ih]

theorem get_metadata_body_ok {w : World} {st : VMState} {p : String} {content : List Char}
    {r : VaultMetadata × VMState} (h : get_metadata_body w st p content = .ok r) :
    r.2.metadataCache p = some r.1 ∧ r.2.fs = st.fs ∧ r.2.noteCache = st.noteCache ∧
      r.2.readCount = st.readCount := by
  unfold get_metadata_body at h
  cases hs : w.statFn p with
  | none => rw [hs] at h; exact absurd h (by simp)
  | some s =>
    obtain ⟨ct, mt⟩ := s
    rw [hs] at h
    cases hy : computeYfm w content with
    | error e => rw [hy] at h; exact absurd h (by simp)
    | ok yfm =>
      rw [hy] at h
      simp only [Except.ok.injEq] at h
      rw [← h]
      refine ⟨?_, rfl, rfl, rfl⟩
      simp

/-- C3 (amended): `_get_metadata` is idempotent for a fixed `(path,
content)` pair — an immediate repetition of a call returns the identical
metadata and leaves the state exactly as the first call left it — and it
never touches the filesystem, the content cache or the read counter.
(The part of C3 that the code violates — freshness with respect to the
`content` argument — is refuted separately: the result is memoized by
path alone.) -/
theorem c3_metadata_idempotent_per_path (w : World) (st : VMState) (p : String) (c : List Char) :
    get_metadata w (get_metadata w st p c).2 p c = get_metadata w st p c ∧
    (get_metadata w st p c).2.fs = st.fs ∧
    (get_metadata w st p c).2.noteCache = st.noteCache ∧
    (get_metadata w st p c).2.readCount = st.readCount := by
  cases hc : st.metadataCache p with
  | some m =>
    have h1 : get_metadata w st p c = (m, st) := by unfold get_metadata; rw [hc]
    rw [h1]
    exact ⟨h1, rfl, rfl, rfl⟩
  | none =>
    cases hb : get_metadata_body w st p c with
    | error e =>
      have h1 : get_metadata w st p c = (degenerateMetadata w.now, st) := by
        unfold get_metadata; rw [hc, hb]
      rw [h1]
      exact ⟨h1, rfl, rfl, rfl⟩
    | ok r =>
      have h1 : get_metadata w st p c = r := by unfold get_metadata; rw [hc, hb]
      obtain ⟨hmc, hfs, hnc, hrc⟩ := get_metadata_body_ok hb
      have h2 : get_metadata w r.2 p c = (r.1, r.2) := by unfold get_metadata; rw [hmc]
      rw [h1]
      exact ⟨h2, hfs, hnc, hrc⟩

/-- C3 counterexample: the returned metadata is NOT determined by the
content passed to the call.  After extracting metadata for path `"p"`
with content `#alpha`, a second call for the same path with content
`#beta` returns the memoized structure carried over from the first call
(tags `{alpha}`), while a fresh extraction of the same content yields
tags `{beta}`. -/
theorem c3_counterexample_stale_metadata :
    ((get_metadata stdWorld ((get_metadata stdWorld (mkVM []) "p" "#alpha".data).2)
        "p" "#beta".data).1).tags = ["alpha".data] ∧
    ((get_metadata stdWorld (mkVM []) "p" "#beta".data).1).tags = ["beta".data] := by
  exact ⟨rfl, rfl⟩

/-- C4: `_get_metadata` is total.  Every exception of the body — a
failing filesystem stat, or an escape of the front-matter computation
(e.g. a non-`YAMLError` exception out of `yaml.safe_load`) — is caught by
the handler, which returns the valid degenerate structure (now-timestamps,
empty sets, empty front-matter) with the state unchanged; in every case a
`VaultMetadata` is returned. -/
theorem c4_get_metadata_total (w : World) (st : VMState) (p : String) (c : List Char) :
    (st.metadataCache p = none → w.statFn p = none →
      get_metadata w st p c = (degenerateMetadata w.now, st)) ∧
    (st.metadataCache p = none → get_metadata_body w st p c = .error () →
      get_metadata w st p c = (degenerateMetadata w.now, st)) ∧
    ∃ m st2, get_metadata w st p c = (m, st2) := by
  refine ⟨?_, ?_, ?_⟩
  · intro hc hs
    have hb : get_metadata_body w st p c = .error () := by unfold get_metadata_body; rw [hs]
    unfold get_metadata
    rw [hc, hb]
  · intro hc hb
    unfold get_metadata
    rw [hc, hb]
  · exact ⟨_, _, rfl⟩

/-- A world whose stat call always raises. -/
def statFailWorld : World :=
  { parseYaml := fun _ => ParseOutcome.yamlError, statFn := fun _ => none, now := 5,
    headingMatch := fun _ _ => none }

/-- Witness for C4: with a failing stat and empty caches, `_get_metadata`
returns the degenerate structure rather than raising. -/
theorem c4_get_metadata_total_witness :
    get_metadata statFailWorld (mkVM []) "p" "x".data = (degenerateMetadata 5, mkVM []) :=
  (c4_get_metadata_total statFailWorld (mkVM []) "p" "x".data).1 rfl rfl

/-- C5: whenever the content begins with a front-matter block whose text
contains two open braces or an open brace followed by a percent sign,
structured YAML parsing is skipped — the parser oracle is never consulted
— and the extracted `yaml_frontmatter` is exactly the template marker
dict, whatever the parser would have said about the block. -/
theorem c5_template_frontmatter (w : World) (st : VMState) (p : String)
    (content block : List Char) (s : Nat × Nat)
    (hc : st.metadataCache p = none) (hs : w.statFn p = some s)
    (hblock : extractYamlBlock content = some block)
    (ht : (hasSubstr [lbrace, lbrace] block || hasSubstr [lbrace, '%'] block) = true) :
    (get_metadata w st p content).1.yaml_frontmatter = [("_is_template", Yaml.bool true)] := by
  obtain ⟨ct, mt⟩ := s
  have hy : computeYfm w content = .ok [("_is_template", Yaml.bool true)] := by
    unfold computeYfm
    simp only [hblock]
    rw [if_pos ht]
  unfold get_metadata get_metadata_body
  rw [hc, hs, hy]

/-- A world whose YAML parse raises an exception NOT caught by the inner
handler; used to show the template path never reaches the parser. -/
def otherErrWorld : World :=
  { parseYaml := fun _ => ParseOutcome.otherError, statFn := fun _ => some (3, 4), now := 7,
    headingMatch := fun _ _ => none }

/-- Witness for C5: a note whose front-matter block holds a template
placeholder is marked `_is_template`, even under a parser that would
throw. -/
theorem c5_template_frontmatter_witness :
    (get_metadata otherErrWorld (mkVM []) "p"
        "---\ntitle: \x7b\x7bname\x7d\x7d\n---\nbody".data).1.yaml_frontmatter =
      [("_is_template", Yaml.bool true)] :=
  c5_template_frontmatter otherErrWorld (mkVM []) "p"
    "---\ntitle: \x7b\x7bname\x7d\x7d\n---\nbody".data "title: \x7b\x7bname\x7d\x7d".data
    (3, 4) rfl rfl (by decide) (by decide)

/-- C6 (amended): when the non-template front-matter block makes
`yaml.safe_load` raise a `YAMLError`, the raw block text is preserved
under `_raw_frontmatter`.  (The claim's broader wording — that every
parse not producing a mapping preserves the block — fails: a successful
parse of a non-mapping document discards the block; see the
counterexample.) -/
theorem c6_raw_fallback_on_yaml_error (w : World) (st : VMState) (p : String)
    (content block : List Char) (s : Nat × Nat)
    (hc : st.metadataCache p = none) (hs : w.statFn p = some s)
    (hblock : extractYamlBlock content = some block)
    (ht : (hasSubstr [lbrace, lbrace] block || hasSubstr [lbrace, '%'] block) = false)
    (hp : w.parseYaml block = ParseOutcome.yamlError) :
    (get_metadata w st p content).1.yaml_frontmatter =
      [("_raw_frontmatter", Yaml.str (String.mk block))] := by
  obtain ⟨ct, mt⟩ := s
  have hy : computeYfm w content = .ok [("_raw_frontmatter", Yaml.str (String.mk block))] := by
    unfold computeYfm
    simp only [hblock]
    rw [if_neg (by simp [ht]), hp]
  unfold get_metadata get_metadata_body
  rw [hc, hs, hy]

/-- A world modelling `yaml.safe_load` raising a `YAMLError` on every
input (as it does on the malformed mapping `a: [1`). -/
def yamlErrWorld : World :=
  { parseYaml := fun _ => ParseOutcome.yamlError, statFn := fun _ => some (0, 0), now := 0,
    headingMatch := fun _ _ => none }

/-- Witness for C6: a malformed front-matter block (`a: [1`, on which the
YAML parser raises) is preserved verbatim under `_raw_frontmatter`. -/
theorem c6_raw_fallback_witness :
    (get_metadata yamlErrWorld (mkVM []) "p" "---\na: [1\n---\nbody".data).1.yaml_frontmatter =
      [("_raw_frontmatter", Yaml.str "a: [1")] :=
  c6_raw_fallback_on_yaml_error yamlErrWorld (mkVM []) "p" "---\na: [1\n---\nbody".data
    "a: [1".data (0, 0) rfl rfl (by decide) (by decide) rfl

/-- A world modelling `yaml.safe_load` returning the YAML list `["a"]`,
as it does on the valid non-mapping document `- a`. -/
def listWorld : World :=
  { parseYaml := fun _ => ParseOutcome.ok (Yaml.list [Yaml.str "a"]), statFn := fun _ => some (0, 0),
    now := 0, headingMatch := fun _ _ => none }

/-- C6 counterexample: the claim as stated fails when structured parsing
SUCCEEDS but does not produce a mapping.  On the front-matter block `- a`
(valid YAML, a list — `yaml.safe_load` returns `["a"]`), the code leaves
`yaml_frontmatter` empty and the block is silently discarded, instead of
storing `{"_raw_frontmatter": "- a"}` as the claim requires. -/
theorem c6_counterexample_nondict_discarded :
    (get_metadata listWorld (mkVM []) "p" "---\n- a\n---\nbody".data).1.yaml_frontmatter = [] ∧
    (get_metadata listWorld (mkVM []) "p" "---\n- a\n---\nbody".data).1.yaml_frontmatter ≠
      [("_raw_frontmatter", Yaml.str "- a")] := by
  have h1 : (get_metadata listWorld (mkVM []) "p"
      "---\n- a\n---\nbody".data).1.yaml_frontmatter = [] := rfl
  exact ⟨h1, by rw [h1]; exact fun h => nomatch h⟩

/-- C1 (code bug): evaluation at the failing input.  Vault root `/v`,
file `a.md` with content `old`.  `update_note("a.md", "new", "append")`
returns `True` and the disk now holds `old\nnew`; but the immediately
following `get_note("a.md")` still returns content `old`: `update_note`
cached the old content under the ABSOLUTE path `/v/a.md` while reading,
then invalidated the RELATIVE key `a.md` in both `_note_cache` and
`_metadata_cache` (vault.py lines 205-207), leaving the absolute-keyed
entry that `_read_file` consults. -/
theorem c1_update_then_get_returns_stale :
    (update_note stdWorld (mkVM [("/v/a.md", "old".data)]) "/v" "a.md" "new".data
        "append" none).1 = true ∧
    lookupFS (update_note stdWorld (mkVM [("/v/a.md", "old".data)]) "/v" "a.md" "new".data
        "append" none).2.fs "/v/a.md" = some "old\nnew".data ∧
    ((get_note stdWorld (update_note stdWorld (mkVM [("/v/a.md", "old".data)]) "/v" "a.md"
          "new".data "append" none).2 "/v" "a.md").1.map fun n => n.content) =
      some "old".data := by
  refine ⟨rfl, by decide, by decide⟩

/-- C2 (amended): only the bulk note-listing cache is TTL-bounded.
`get_all_notes` returns the cached listing exactly while
`now - fetch_time < 30` and recomputes once that window has passed; but
`_read_file` consults no clock at all — a `_note_cache` hit is returned
unchanged (no re-read, no state change) no matter how much time has
passed. -/
theorem c2_ttl_only_listing_cache (w : World) (st : VMState) (v : String) (now : Nat)
    (l : List VaultNote) (p : String) (c : List Char) :
    (st.noteListCache = some l → now - st.noteListCacheTime < cacheTTL →
      get_all_notes w st v now = (l, st)) ∧
    (st.noteListCache = some l → ¬ now - st.noteListCacheTime < cacheTTL →
      get_all_notes w st v now = compute_all_notes w st v now) ∧
    (st.noteCache p = some c → read_file st p = (some c, st)) := by
  refine ⟨?_, ?_, ?_⟩
  · intro hl ht
    unfold get_all_notes
    simp only [hl]
    rw [if_pos ht]
  · intro hl ht
    unfold get_all_notes
    simp only [hl]
    rw [if_neg ht]
  · intro hn
    unfold read_file
    rw [hn]

/-- Witness for C2 (amended): a state whose listing cache was stamped at
time 0 still serves it at time 10, and a content-cache hit is returned
with the state untouched. -/
theorem c2_ttl_only_listing_cache_witness :
    get_all_notes stdWorld
        { fs := [], noteCache := fun q => if q = "/v/a.md" then some "hello".data else none,
          metadataCache := fun _ => none, noteListCache := some [],
          noteListCacheTime := 0, readCount := 1 } "/v" 10 =
      ([], { fs := [], noteCache := fun q => if q = "/v/a.md" then some "hello".data else none,
             metadataCache := fun _ => none, noteListCache := some [],
             noteListCacheTime := 0, readCount := 1 }) ∧
    read_file
        { fs := [], noteCache := fun q => if q = "/v/a.md" then some "hello".data else none,
          metadataCache := fun _ => none, noteListCache := some [],
          noteListCacheTime := 0, readCount := 1 } "/v/a.md" =
      (some "hello".data,
       { fs := [], noteCache := fun q => if q = "/v/a.md" then some "hello".data else none,
         metadataCache := fun _ => none, noteListCache := some [],
         noteListCacheTime := 0, readCount := 1 }) :=
  ⟨(c2_ttl_only_listing_cache stdWorld _ "/v" 10 [] "/v/a.md" "hello".data).1 rfl (by decide),
   (c2_ttl_only_listing_cache stdWorld _ "/v" 10 [] "/v/a.md" "hello".data).2.2 rfl⟩

/-- C2 counterexample: single-note cache entries do NOT expire.  After a
first read of `/v/a.md` (one disk read), a second fetch — `_read_file`
takes no clock, so this covers any elapsed time, `TTL + ε` included —
returns the cached value and performs no re-read: the read count stays at
1 and the state is bit-identical, where the claim requires the entry to
be treated as absent and re-read. -/
theorem c2_counterexample_note_cache_never_expires :
    read_file (read_file (mkVM [("/v/a.md", "hello".data)]) "/v/a.md").2 "/v/a.md" =
      (some "hello".data, (read_file (mkVM [("/v/a.md", "hello".data)]) "/v/a.md").2) ∧
    (read_file (mkVM [("/v/a.md", "hello".data)]) "/v/a.md").2.readCount = 1 ∧
    (read_file (read_file (mkVM [("/v/a.md", "hello".data)]) "/v/a.md").2 "/v/a.md").2.readCount
      = 1 := by
  exact ⟨rfl, rfl, rfl⟩

/-- C10: with no heading and a mode that is neither `append` nor
`prepend` (such as the `replace` mode `MemoryManager.strengthen_relationship`
passes, memory.py line 96), `update_note` on an existing note succeeds:
it returns `True` and the document on disk afterwards is exactly the new
content, the previous content being discarded. -/
theorem c10_other_mode_replaces (w : World) (st : VMState) (v rel : String)
    (content : List Char) (mode : String) (old : List Char)
    (h1 : mode ≠ "append") (h2 : mode ≠ "prepend")
    (hfs : lookupFS st.fs (joinPath v rel) = some old) :
    (update_note w st v rel content mode none).1 = true ∧
    lookupFS (update_note w st v rel content mode none).2.fs (joinPath v rel) = some content := by
  cases hn : st.noteCache (joinPath v rel) with
  | some cached =>
    have hr : read_file st (joinPath v rel) = (some cached, st) := by
      unfold read_file; rw [hn]
    simp only [update_note, hfs, hr, if_neg h1, if_neg h2]
    simp [write_file, invalidate_cache, lookupFS_setFS_self]
  | none =>
    have hr : read_file st (joinPath v rel) =
        (some old,
         { st with noteCache := fun q => if q = joinPath v rel then some old else st.noteCache q,
                   readCount := st.readCount + 1 }) := by
      unfold read_file
      simp only [hn, hfs]
    simp only [update_note, hfs, hr, if_neg h1, if_neg h2]
    simp [write_file, invalidate_cache, lookupFS_setFS_self]

/-- Witness for C10: replacing `old` by `new` through the undocumented
mode `replace` succeeds and leaves exactly `new` on disk. -/
theorem c10_other_mode_replaces_witness :
    (update_note stdWorld (mkVM [("/v/a.md", "old".data)]) "/v" "a.md" "new".data
        "replace" none).1 = true ∧
    lookupFS (update_note stdWorld (mkVM [("/v/a.md", "old".data)]) "/v" "a.md" "new".data
        "replace" none).2.fs (joinPath "/v" "a.md") = some "new".data :=
  c10_other_mode_replaces stdWorld (mkVM [("/v/a.md", "old".data)]) "/v" "a.md" "new".data
    "replace" "old".data (by decide) (by decide) rfl

/-- C9: the content preview is the first 200 characters with the
three-dot marker appended exactly when the content is longer than 200
characters (203 characters total), and the unmodified content otherwise. -/
theorem c9_preview_truncation (c : List Char) :
    (200 < c.length → preview c = c.take 200 ++ ('.' :: '.' :: '.' :: []) ∧
      (preview c).length = 203) ∧
    (c.length ≤ 200 → preview c = c) := by
  constructor
  · intro h
    have hp : preview c = c.take 200 ++ ('.' :: '.' :: '.' :: []) := by
      unfold preview; rw [if_pos h]
    refine ⟨hp, ?_⟩
    rw [hp]
    simp [List.length_take]
    omega
  · intro h
    unfold preview
    rw [if_neg (by omega)]

/-- Witness for C9: content of length 250 previews to exactly 203
characters (200 plus the marker); content of length 150 is returned
whole. -/
theorem c9_preview_truncation_witness :
    (preview (List.replicate 250 'a')).length = 203 ∧
    preview (List.replicate 150 'a') = List.replicate 150 'a' :=
  ⟨((c9_preview_truncation (List.replicate 250 'a')).1
      (by simp only [List.length_replicate]; omega)).2,
   (c9_preview_truncation (List.replicate 150 'a')).2
      (by simp only [List.length_replicate]; omega)⟩

/-- Key of the first element of a scored list (0 on the empty list). -/
def headKey {α : Type} (key : α → Nat) : List α → Nat
  | [] => 0
  | x :: _ => key x

theorem mem_insertDesc {α : Type} {key : α → Nat} {x a : α} :
    ∀ {l : List α}, x ∈ insertDesc key a l ↔ x = a ∨ x ∈ l := by
  intro l
  induction l with
  | nil => simp [insertDesc]
  | cons y ys ih =>
    unfold insertDesc
    by_cases h : key y ≤ key a
    · rw [if_pos h]
      simp
    · rw [if_neg h]
      simp only [List.mem_cons, ih]
      tauto

theorem mem_sortDesc {α : Type} {key : α → Nat} {x : α} :
    ∀ {l : List α}, x ∈ sortDesc key l ↔ x ∈ l := by
  intro l
  induction l with
  | nil => simp [sortDesc]
  | cons y ys ih =>
    unfold sortDesc
    rw [mem_insertDesc]
    simp only [List.mem_cons, ih]

theorem headKey_insertDesc {α : Type} (key : α → Nat) (a : α) (l : List α) :
    headKey key (insertDesc key a l) = max (key a) (headKey key l) := by
  cases l with
  | nil => simp [insertDesc, headKey]
  | cons y ys =>
    unfold insertDesc
    by_cases h : key y ≤ key a
    · rw [if_pos h]
      simp [headKey]
      omega
    · rw [if_neg h]
      simp [headKey]
      omega

theorem le_headKey_sortDesc {α : Type} {key : α → Nat} {x : α} :
    ∀ {l : List α}, x ∈ l → key x ≤ headKey key (sortDesc key l) := by
  intro l
  induction l with
  | nil => intro h; exact absurd h (by simp)
  | cons y ys ih =>
    intro h
    unfold sortDesc
    rw [headKey_insertDesc]
    rcases List.mem_cons.mp h with h1 | h2
    · subst h1; omega
    · have := ih h2; omega

theorem sortDesc_ne_nil {α : Type} {key : α → Nat} {l : List α} (h : l ≠ []) :
    sortDesc key l ≠ [] := by
  cases l with
  | nil => exact absurd rfl h
  | cons y ys =>
    unfold sortDesc
    cases hs : sortDesc key ys with
    | nil => simp [insertDesc]
    | cons z zs =>
      unfold insertDesc
      by_cases hk : key z ≤ key y
      · rw [if_pos hk]; simp
      · rw [if_neg hk]; simp

theorem mem_scored_fst {s : String → String → Nat} {q : String} :
    ∀ {l : List String} {x : String × Nat × Nat} (n : Nat),
      x ∈ (l.enumFrom n).map (fun p => (p.2, s q p.2, p.1)) → x.1 ∈ l ∧ x.2.1 = s q x.1 := by
  intro l
  induction l with
  | nil => intro x n h; exact absurd h (by simp [List.enumFrom])
  | cons a as ih =>
    intro x n h
    simp only [List.enumFrom, List.map_cons, List.mem_cons] at h
    rcases h with h1 | h2
    · subst h1; simp
    · have := ih (n + 1) h2
      exact ⟨List.mem_cons_of_mem a this.1, this.2⟩

theorem exists_mem_scored {s : String → String → Nat} {q : String} {a : String} :
    ∀ {l : List String} (n : Nat), a ∈ l →
      ∃ i, (a, s q a, i) ∈ (l.enumFrom n).map (fun p => (p.2, s q p.2, p.1)) := by
  intro l
  induction l with
  | nil => intro n h; exact absurd h (by simp)
  | cons b bs ih =>
    intro n h
    rcases List.mem_cons.mp h with h1 | h2
    · subst h1
      exact ⟨n, by simp [List.enumFrom]⟩
    · obtain ⟨i, hi⟩ := ih (n + 1) h2
      exact ⟨i, by simp only [List.enumFrom, List.map_cons, List.mem_cons]; right; exact hi⟩

/-- C7: `search` returns only candidates whose score reaches the
threshold, never more than `max_results` of them, and — in particular —
returns the empty list (not an error) when no indexed title scores at or
above the threshold. -/
theorem c7_search_threshold_and_cap (scorer : String → String → Nat)
    (index : List (String × List Char)) (query : String) (threshold maxResults : Nat) :
    (∀ r, r ∈ search scorer index query threshold maxResults → threshold ≤ r.score) ∧
    (search scorer index query threshold maxResults).length ≤ maxResults ∧
    ((∀ t, t ∈ index.map Prod.fst → scorer query t < threshold) →
      search scorer index query threshold maxResults = []) := by
  have hsearch : search scorer index query threshold maxResults =
      (process_extract scorer query (index.map Prod.fst) maxResults).filterMap
        (fun m => if threshold ≤ m.2.1 then
            some { title := m.1, score := m.2.1,
                   content := preview (index.getD m.2.2 ("", [])).2 } else none) := rfl
  refine ⟨?_, ?_, ?_⟩
  · intro r hr
    rw [hsearch] at hr
    rcases List.mem_filterMap.mp hr with ⟨a, ha, hfa⟩
    by_cases hc : threshold ≤ a.2.1
    · rw [if_pos hc] at hfa
      cases hfa
      exact hc
    · rw [if_neg hc] at hfa
      exact absurd hfa (by simp)
  · rw [hsearch]
    refine le_trans (List.length_filterMap_le _ _) ?_
    unfold process_extract
    exact List.length_take_le _ _
  · intro hall
    rw [hsearch]
    apply List.filterMap_eq_nil_iff.mpr
    intro a ha
    unfold process_extract at ha
    have ha2 : a ∈ sortDesc (fun m => m.2.1)
        (((index.map Prod.fst).enum).map fun p => (p.2, scorer query p.2, p.1)) :=
      List.mem_of_mem_take ha
    have ha3 := mem_sortDesc.mp ha2
    obtain ⟨ht, hsc⟩ := mem_scored_fst (s := scorer) (q := query) 0 ha3
    have hlt := hall a.1 ht
    rw [if_neg (by omega)]

/-- Witness for C7: on an index whose sole title scores 0 against the
query, `search("xyz123nomatch", threshold=60)` returns the empty list. -/
theorem c7_search_threshold_witness :
    search (fun _ _ => 0) [("Title", "c".data)] "xyz123nomatch" 60 10 = [] :=
  (c7_search_threshold_and_cap (fun _ _ => 0) [("Title", "c".data)] "xyz123nomatch" 60 10).2.2
    (fun t _ => by omega)

/-- C8 (amended): if some indexed title scores 100 against the query (as
an exact or substring match does under partial-ratio scoring), the scorer
never exceeds 100, the threshold is at most 100 and at least one result
is requested, then `search` returns a result with score exactly 100 —
namely the top-ranked one.  (Whether that result is for the matching
title `t` itself additionally requires `t` to rank among the first
`max_results` candidates; see the counterexample.) -/
theorem c8_exact_match_scores_100 (scorer : String → String → Nat)
    (index : List (String × List Char)) (query t : String) (c : List Char)
    (threshold maxResults : Nat)
    (hmem : (t, c) ∈ index) (h100 : scorer query t = 100)
    (hle : ∀ u, scorer query u ≤ 100) (hth : threshold ≤ 100) (hmax : 1 ≤ maxResults) :
    ∃ r, r ∈ search scorer index query threshold maxResults ∧ r.score = 100 := by
  obtain ⟨m, rfl⟩ : ∃ m, maxResults = m + 1 := ⟨maxResults - 1, by omega⟩
  have hsearch : search scorer index query threshold (m + 1) =
      (process_extract scorer query (index.map Prod.fst) (m + 1)).filterMap
        (fun x => if threshold ≤ x.2.1 then
            some { title := x.1, score := x.2.1,
                   content := preview (index.getD x.2.2 ("", [])).2 } else none) := rfl
  have ht : t ∈ index.map Prod.fst := List.mem_map_of_mem Prod.fst hmem
  obtain ⟨i, hi⟩ := exists_mem_scored (s := scorer) (q := query) 0 ht
  rw [h100] at hi
  have hne : ((index.map Prod.fst).enum).map
      (fun p => (p.2, scorer query p.2, p.1)) ≠ [] := List.ne_nil_of_mem hi
  have hd100 : 100 ≤ headKey (fun m => m.2.1) (sortDesc (fun m => m.2.1)
      (((index.map Prod.fst).enum).map fun p => (p.2, scorer query p.2, p.1))) :=
    @le_headKey_sortDesc _ (fun m => m.2.1) _ _ hi
  cases hsort : sortDesc (fun m => m.2.1)
      (((index.map Prod.fst).enum).map fun p => (p.2, scorer query p.2, p.1)) with
  | nil => exact absurd hsort (sortDesc_ne_nil hne)
  | cons h tl =>
    have hmemh : h ∈ sortDesc (fun m => m.2.1)
        (((index.map Prod.fst).enum).map fun p => (p.2, scorer query p.2, p.1)) := by
      rw [hsort]; exact List.mem_cons_self h tl
    obtain ⟨hth1, hsc1⟩ := mem_scored_fst (s := scorer) (q := query) 0 (mem_sortDesc.mp hmemh)
    have hle1 : h.2.1 ≤ 100 := by rw [hsc1]; exact hle h.1
    have h2 : h.2.1 = 100 := by
      rw [hsort] at hd100
      have : headKey (fun m => m.2.1) (h :: tl) = h.2.1 := rfl
      omega
    have hms : process_extract scorer query (index.map Prod.fst) (m + 1) = h :: tl.take m := by
      unfold process_extract
      rw [hsort]
      rfl
    refine ⟨{ title := h.1, score := h.2.1,
              content := preview (index.getD h.2.2 ("", [])).2 }, ?_, h2⟩
    rw [hsearch, hms]
    apply List.mem_filterMap.mpr
    refine ⟨h, List.mem_cons_self h (tl.take m), ?_⟩
    rw [if_pos (by omega)]

/-- A concrete scorer with the documented partial-ratio boundary
behavior: 100 when the query occurs as an exact substring of the title,
0 otherwise. -/
def csScorer (q t : String) : Nat := if hasSubstr q.data t.data then 100 else 0

/-- Witness for C8: on an index containing the title `Project Alpha`,
searching for `Project Alpha` with threshold 60 returns a result with
score exactly 100. -/
theorem c8_exact_match_scores_100_witness :
    ∃ r, r ∈ search csScorer [("Project Alpha", ([] : List Char))] "Project Alpha" 60 10 ∧
      r.score = 100 :=
  c8_exact_match_scores_100 csScorer [("Project Alpha", [])] "Project Alpha" "Project Alpha"
    [] 60 10 (by simp) (by decide)
    (fun u => by unfold csScorer; split <;> omega) (by omega) (by omega)

/-- Eleven indexed titles that all contain `Project Alpha` as an exact
substring, with the title `Project Alpha` itself listed last. -/
def index11 : List (String × List Char) :=
  [("Project Alpha 01", []), ("Project Alpha 02", []), ("Project Alpha 03", []),
   ("Project Alpha 04", []), ("Project Alpha 05", []), ("Project Alpha 06", []),
   ("Project Alpha 07", []), ("Project Alpha 08", []), ("Project Alpha 09", []),
   ("Project Alpha 10", []), ("Project Alpha", [])]

/-- C8 counterexample: the claim's universal form — that searching for an
indexed title `t` yields a result FOR `t` — fails once `max_results`
candidates rank at or before `t`.  Here all eleven titles score 100 under
substring-perfect scoring, `process.extract` keeps only the first ten, and
no returned result is for `Project Alpha` even though it is indexed and
matches exactly. -/
theorem c8_counterexample_capped_out :
    (("Project Alpha", ([] : List Char)) ∈ index11) ∧
    (search csScorer index11 "Project Alpha" 60 10).length = 10 ∧
    (search csScorer index11 "Project Alpha" 60 10).any
      (fun r => r.title == "Project Alpha") = false := by
  refine ⟨by decide, by decide, by decide⟩
